import Mathlib

/-!
Shallow embedding of the temporal recurrence and financial installment
engine of the myHelperBuddy repository, together with proofs checking the
natural-language specification against the code.

Source files embedded here:
- accounts/views/view_financial_instrument.py (desired_date, create_finance,
  update_finance_detail)
- accounts/services/ledger_utils.py (calculate_due_date,
  create_installment_transactions, record_payment, get_aging_report)
- accounts/task_models.py (RecurringPattern, Task.mark_complete,
  Task.create_next_occurrence, Task._calculate_next_date)
- accounts/models.py (Reminder.is_due_today)

Numeric conventions: Python Decimal and float amounts are embedded as
rationals; Python date objects are embedded as year/month/day triples of
naturals with an explicit validity predicate; datetimes compared only for
order (snooze timestamps) are embedded as integers.
-/

namespace MHB

/-- Gregorian leap year test, as implemented by the Python calendar. -/
def isLeap (y : Nat) : Bool :=
  y % 4 == 0 && (y % 100 != 0 || y % 400 == 0)

/-- Number of days of month `m` (1-12) of year `y`; 0 for an invalid month. -/
def daysInMonth (y m : Nat) : Nat :=
  if m == 1 || m == 3 || m == 5 || m == 7 || m == 8 || m == 10 || m == 12 then 31
  else if m == 4 || m == 6 || m == 9 || m == 11 then 30
  else if m == 2 then (if isLeap y then 29 else 28)
  else 0

/-- A calendar date, as the year/month/day triple of a Python `datetime.date`. -/
structure Dte where
  y : Nat
  m : Nat
  d : Nat
deriving DecidableEq, Repr

/-- Validity of a year/month/day triple: exactly the triples the Python
`datetime.date` constructor accepts (year bounds aside). -/
def Dte.valid (dt : Dte) : Bool :=
  1 ≤ dt.m && dt.m ≤ 12 && 1 ≤ dt.d && dt.d ≤ daysInMonth dt.y dt.m

/-- Strict order on dates (Python date comparison). -/
def dteLt (a b : Dte) : Bool :=
  a.y < b.y || (a.y == b.y && (a.m < b.m || (a.m == b.m && a.d < b.d)))

/-- Non-strict order on dates (Python date comparison). -/
def dteLe (a b : Dte) : Bool :=
  dteLt a b || a == b

/-- Successor day, with month and year rollover. -/
def nextDay (dt : Dte) : Dte :=
  if dt.d < daysInMonth dt.y dt.m then ⟨dt.y, dt.m, dt.d + 1⟩
  else if dt.m < 12 then ⟨dt.y, dt.m + 1, 1⟩
  else ⟨dt.y + 1, 1, 1⟩

/-- Predecessor day, with month and year rollover
(`next_date - timedelta(days=1)`). -/
def prevDay (dt : Dte) : Dte :=
  if 1 < dt.d then ⟨dt.y, dt.m, dt.d - 1⟩
  else if 1 < dt.m then ⟨dt.y, dt.m - 1, daysInMonth dt.y (dt.m - 1)⟩
  else ⟨dt.y - 1, 12, 31⟩

/-- Date plus a number of days (`date + timedelta(days=n)`, n ≥ 0). -/
def addDays (dt : Dte) : Nat → Dte
  | 0 => dt
  | n + 1 => addDays (nextDay dt) n

/-- Rata-die style day number of a date (days since 0000-03-01 of the
proleptic Gregorian calendar), used for day differences and weekdays. -/
def toRD (dt : Dte) : Nat :=
  let y := if dt.m ≤ 2 then dt.y - 1 else dt.y
  let era := y / 400
  let yoe := y % 400
  let mp := (dt.m + 9) % 12
  let doy := (153 * mp + 2) / 5 + dt.d - 1
  let doe := yoe * 365 + yoe / 4 - yoe / 100 + doy
  era * 146097 + doe

/-- Weekday of a date with Monday = 0 (Python `date.weekday()`). -/
def weekday (dt : Dte) : Nat :=
  (toRD dt + 2) % 7

/-- Signed day difference `(a - b).days` between two dates. -/
def daysBetween (a b : Dte) : Int :=
  (toRD a : Int) - (toRD b : Int)

end MHB

namespace MHB

/-- Month-offset date calculation `desired_date(start_date, months_offset)` of
view_financial_instrument.py: adds months with year rollover and then builds
a `datetime` with the original day of month; `none` models the `ValueError`
the constructor raises when that day does not exist in the target month. -/
def desired_date (start : Dte) (monthsOffset : Nat) : Option Dte :=
  let dm := start.m + monthsOffset
  let year := start.y + (dm - 1) / 12
  let month := (dm - 1) % 12 + 1
  if (Dte.mk year month start.d).valid then some ⟨year, month, start.d⟩ else none

/-- Round-half-even of a rational to an integer, the rounding used by Python
`round` and by `Decimal` quantization. -/
def roundHalfEven (q : ℚ) : ℤ :=
  let f := ⌊q⌋
  let r := q - f
  if r < 1/2 then f
  else if 1/2 < r then f + 1
  else if f % 2 = 0 then f else f + 1

/-- Python `round(x, 2)`: round-half-even at two decimal places. -/
def round2 (q : ℚ) : ℚ :=
  (roundHalfEven (q * 100) : ℚ) / 100

/-- A financial product record (FinancialProduct row, engine-relevant fields). -/
structure FinProd where
  name : String
  ptype : String
  startedOn : Dte
  amount : ℚ
  count : Nat
deriving DecidableEq, Repr

/-- An installment transaction record (Transaction row, engine-relevant fields). -/
structure FinTx where
  ttype : String
  category : String
  date : Dte
  amount : ℚ
  description : String
  status : String
  modeDetail : String
deriving DecidableEq, Repr

/-- Database state owned by one financial product: the product row and its
installment transactions in creation (primary key) order. -/
structure FinState where
  prod : FinProd
  txs : List FinTx
deriving DecidableEq, Repr

/-- The POST input of `update_finance_detail`. -/
structure FinInput where
  name : String
  itype : String
  startedOn : Dte
  amount : ℚ
  count : Nat
  category : String
deriving DecidableEq, Repr

/-- Errors raised by the finance views: the explicit `ValueError`s plus the
date-construction `ValueError` of `desired_date` and the `AttributeError`
hit when a product has no transactions to continue from. -/
inductive FinErr
  | countLtOne
  | startConflict
  | amountBelowPaid
  | countBelowCompleted
  | countEqCompleted
  | dateInvalid
  | noLast
deriving DecidableEq, Repr

/-- Sub-label of installment descriptions:
`sub_label = 'EMI' if i_type == 'Loan' else i_type`. -/
def subLabel (t : String) : String :=
  if t = "Loan" then "EMI" else t

/-- Installment description string `f'{name} {sub_label} {index}'`. -/
def mkDesc (name lbl : String) (i : Nat) : String :=
  s!"{name} {lbl} {i}"

/-- Category resolution of the finance views: Loan forces EMI, Split keeps the
provided category, anything else becomes Investment. -/
def financeCategory (ptype category : String) : String :=
  if ptype = "Loan" then "EMI"
  else if ptype = "Split" then category
  else "Investment"

/-- Transaction-creation loop of `create_finance`: transaction `i` is dated
`desired_date(started_on, i)`; a date failure aborts the loop, keeping the
transactions already created (Boolean flag). -/
def createFinanceLoop (name lbl category ptype : String) (emi : ℚ) (start : Dte) :
    Nat → Nat → List FinTx × Bool
  | _, 0 => ([], false)
  | i, k + 1 =>
    match desired_date start i with
    | none => ([], true)
    | some dd =>
      let (rest, e) := createFinanceLoop name lbl category ptype emi start (i + 1) k
      ({ ttype := "Expense", category := category, date := dd, amount := emi,
         description := mkDesc name lbl (i + 1), status := "Pending",
         modeDetail := ptype } :: rest, e)

/-- The `create_finance` view: validates the installment count, creates the
product, then creates `n` installment transactions of amount
`round(amount / n, 2)` dated by `desired_date`, all with status Pending. -/
def create_finance (name ptype category : String) (amount : ℚ) (n : Nat) (start : Dte) :
    Option FinProd × List FinTx × Option FinErr :=
  if n = 0 then (none, [], some .countLtOne)
  else
    let prod : FinProd := ⟨name, ptype, start, amount, n⟩
    let emi := round2 (amount / (n : ℚ))
    let cat := financeCategory ptype category
    let lbl := subLabel ptype
    let (txs, failed) := createFinanceLoop name lbl cat ptype emi start 0 n
    (some prod, txs, if failed then some FinErr.dateInvalid else none)

/-- Name-phase loop of `update_finance_detail`
(`for index, trn in enumerate(transactions, 1)`): every transaction
description is rewritten to `f'{name} {sub_label} {index}'` and saved. -/
def relabel (name lbl : String) : Nat → List FinTx → List FinTx
  | _, [] => []
  | i, t :: ts => { t with description := mkDesc name lbl i } :: relabel name lbl (i + 1) ts

/-- Type-phase loop: category, mode detail and description of every
transaction are rewritten and saved. -/
def recat (name cat mdetail lbl : String) : Nat → List FinTx → List FinTx
  | _, [] => []
  | i, t :: ts =>
    { t with category := cat, modeDetail := mdetail,
             description := mkDesc name lbl i } :: recat name cat mdetail lbl (i + 1) ts

/-- Type phase of `update_finance_detail`: when the requested type differs,
the draft product type and every transaction category, mode detail and
description are rewritten and saved. -/
def retype (prod : FinProd) (inp : FinInput) (txs : List FinTx) :
    FinProd × List FinTx :=
  if inp.itype ≠ prod.ptype then
    ({ prod with ptype := inp.itype },
     recat inp.name (financeCategory inp.itype inp.category) inp.itype
       (subLabel inp.itype) 1 txs)
  else (prod, txs)

/-- Date-recalculation loop of the start-date phase: transaction `i` (0-based)
with `i ≥ nPaid` is redated to `desired_date(started_on, i - nPaid)` and saved;
a date failure aborts mid-loop, keeping earlier saves (Boolean flag). -/
def redates (startedOn : Dte) (nPaid : Nat) : Nat → List FinTx → List FinTx × Bool
  | _, [] => ([], false)
  | i, t :: ts =>
    if i < nPaid then
      let (r, e) := redates startedOn nPaid (i + 1) ts
      (t :: r, e)
    else
      match desired_date startedOn (i - nPaid) with
      | none => (t :: ts, true)
      | some dd =>
        let (r, e) := redates startedOn nPaid (i + 1) ts
        ({ t with date := dd } :: r, e)

/-- Start-date phase of `update_finance_detail`: when the requested start date
differs, it is validated against every completed installment date, the draft
start date is updated only when nothing is paid, and pending transaction dates
are recomputed and saved. -/
def restartPhase (prod : FinProd) (inp : FinInput) (txs : List FinTx) :
    FinProd × List FinTx × Option FinErr :=
  if inp.startedOn ≠ prod.startedOn then
    let nPaid := (txs.filter (fun t => t.status = "Completed")).length
    let paidDates := (txs.filter (fun t => t.status = "Completed")).map (·.date)
    if paidDates.any (fun dd => dteLe inp.startedOn dd) then
      (prod, txs, some FinErr.startConflict)
    else
      let prod := if nPaid = 0 then { prod with startedOn := inp.startedOn } else prod
      let (txs, failed) := redates inp.startedOn nPaid 0 txs
      (prod, txs, if failed then some FinErr.dateInvalid else none)
  else (prod, txs, none)

/-- Transaction-creation loop of the grow branch: each appended transaction
copies type and category from the last existing transaction, is dated
`desired_date(last.date, 1)`, gets the recomputed amount and status Pending. -/
def mkNewTxs (last : FinTx) (emi : ℚ) (name lbl mdetail : String) :
    Nat → Nat → List FinTx × Bool
  | _, 0 => ([], false)
  | i, k + 1 =>
    match desired_date last.date 1 with
    | none => ([], true)
    | some dd =>
      let r := mkNewTxs last emi name lbl mdetail (i + 1) k
      ({ ttype := last.ttype, category := last.category, date := dd, amount := emi,
         description := mkDesc name lbl (i + 1), status := "Pending",
         modeDetail := mdetail } :: r.1, r.2)

/-- Amount rewrite of existing transactions; when `checkStatus` is set only
non-completed transactions are touched (branch with completed installments). -/
def repriceTxs (emi : ℚ) (checkStatus : Bool) (txs : List FinTx) : List FinTx :=
  txs.map fun t =>
    if checkStatus && t.status == "Completed" then t else { t with amount := emi }

/-- Shrink branch of `update_finance_detail`: 1-based index at most the new
count is kept (repriced unless completed and `checkStatus`), the rest deleted. -/
def shrinkTxs (n : Nat) (emi : ℚ) (checkStatus : Bool) : Nat → List FinTx → List FinTx
  | _, [] => []
  | idx, t :: ts =>
    if idx ≤ n then
      (if checkStatus && t.status == "Completed" then t else { t with amount := emi }) ::
        shrinkTxs n emi checkStatus (idx + 1) ts
    else shrinkTxs n emi checkStatus (idx + 1) ts

/-- The three validations of the amount/installment phase, checked in source
order before any mutation of that phase. -/
def amountValidation (inp : FinInput) (paid : ℚ) (completedCount : Nat) : Option FinErr :=
  if inp.amount < paid then some FinErr.amountBelowPaid
  else if inp.count < completedCount then some FinErr.countBelowCompleted
  else if paid < inp.amount ∧ inp.count = completedCount then some FinErr.countEqCompleted
  else none

/-- Grow/shrink/reprice step of the amount/installment phase, identical in
the two source branches except that only the branch with completed
installments skips completed transactions when repricing (`checkStatus`). -/
def resize (prev : Nat) (inp : FinInput) (emi : ℚ) (checkStatus : Bool)
    (mdetail : String) (txs : List FinTx) : List FinTx × Option FinErr :=
  if prev < inp.count then
    let txs2 := repriceTxs emi checkStatus txs
    match txs2.getLast? with
    | none => (txs2, some FinErr.noLast)
    | some last =>
      let nw := mkNewTxs last emi inp.name (subLabel inp.itype) mdetail prev (inp.count - prev)
      (txs2 ++ nw.1, if nw.2 then some FinErr.dateInvalid else none)
  else if inp.count < prev then (shrinkTxs inp.count emi checkStatus 1 txs, none)
  else (repriceTxs emi checkStatus txs, none)

/-- Amount/installment phase of `update_finance_detail`: when the requested
amount or count differs, validates against paid amounts and completed counts,
recomputes the per-installment amount, then grows, shrinks or reprices the
transaction set; the draft amount and count are updated after validation. -/
def amountPhase (prod : FinProd) (inp : FinInput) (txs : List FinTx) :
    FinProd × List FinTx × Option FinErr :=
  if inp.amount ≠ prod.amount ∨ inp.count ≠ prod.count then
    let prev := prod.count
    let completedCount := (txs.filter (fun t => t.status = "Completed")).length
    if completedCount ≠ 0 then
      let paid := ((txs.filter (fun t => t.status = "Completed")).map (·.amount)).sum
      match amountValidation inp paid completedCount with
      | some e => (prod, txs, some e)
      | none =>
        let remainingInst := inp.count - completedCount
        let emi := if remainingInst ≠ 0 then
            round2 ((inp.amount - paid) / (remainingInst : ℚ)) else 0
        let prod2 := { prod with amount := inp.amount, count := inp.count }
        let r := resize prev inp emi true prod2.ptype txs
        (prod2, r.1, r.2)
    else
      let emi := round2 (inp.amount / (inp.count : ℚ))
      let prod2 := { prod with amount := inp.amount, count := inp.count }
      let r := resize prev inp emi false prod2.ptype txs
      (prod2, r.1, r.2)
  else (prod, txs, none)

/-- The POST path of `update_finance_detail`: validates the count, then runs
the name, type, start-date and amount phases in order. Transaction saves are
committed immediately inside each phase; the product row is saved only after
every phase succeeds, so on an error the returned state keeps the original
product row together with whatever transaction saves already happened. -/
def update_finance_detail (s : FinState) (inp : FinInput) : FinState × Option FinErr :=
  if inp.count = 0 then (s, some FinErr.countLtOne)
  else
    let draft1 : FinProd := { s.prod with name := inp.name }
    let txs1 := relabel inp.name (subLabel inp.itype) 1 s.txs
    let pr2 := retype draft1 inp txs1
    let pr3 := restartPhase pr2.1 inp pr2.2
    match pr3.2.2 with
    | some e => ({ s with txs := pr3.2.1 }, some e)
    | none =>
      let pr4 := amountPhase pr3.1 inp pr3.2.1
      match pr4.2.2 with
      | some e => ({ s with txs := pr4.2.1 }, some e)
      | none => (⟨pr4.1, pr4.2.1⟩, none)

end MHB

namespace MHB

/-- Due-date calculation of ledger_utils.py `calculate_due_date`: MONTHLY is
approximated as 30 days per month, WEEKLY as 7 days per week, CUSTOM as the
given day interval; missing custom days or an unknown frequency raise. -/
def calculate_due_date (start : Dte) (installmentIndex : Nat) (freq : String)
    (customDays : Option Nat) : Except Unit Dte :=
  if freq = "MONTHLY" then .ok (addDays start (30 * installmentIndex))
  else if freq = "WEEKLY" then .ok (addDays start (7 * installmentIndex))
  else if freq = "CUSTOM" then
    match customDays with
    | none => .error ()
    | some cd => .ok (addDays start (cd * installmentIndex))
  else .error ()

/-- A ledger installment row as created by `create_installment_transactions`
(engine-relevant fields). -/
structure LedgerInst where
  installmentNumber : Nat
  amount : ℚ
  dueDate : Dte
  status : String
deriving DecidableEq, Repr

/-- Child-creation loop of `create_installment_transactions`. -/
def installmentLoop (amt : ℚ) (freq : String) (start : Dte) (cd : Option Nat)
    (status : String) : Nat → Nat → Except Unit (List LedgerInst)
  | _, 0 => .ok []
  | i, k + 1 => do
    let dd ← calculate_due_date start i freq cd
    let rest ← installmentLoop amt freq start cd status (i + 1) k
    .ok ({ installmentNumber := i + 1, amount := amt, dueDate := dd,
           status := status } :: rest)

/-- Installment generation of ledger_utils.py: each of the `n` children gets
amount `base / n` and due date `calculate_due_date(start, i, freq)`; the
status comes from the caller (the create view passes PENDING for
RECEIVABLE/PAYABLE transactions). -/
def create_installment_transactions (base : ℚ) (n : Nat) (freq : String)
    (start : Dte) (cd : Option Nat) (status : String) :
    Except Unit (List LedgerInst) :=
  installmentLoop (base / (n : ℚ)) freq start cd status 0 n

/-- A ledger obligation row (enhanced LedgerTransaction, engine-relevant
fields; due dates and todays are day numbers). -/
structure LedgerTx where
  transactionType : String
  counterparty : String
  status : String
  dueDate : Option Int
  amount : ℚ
  paid : ℚ
  remaining : ℚ
  isDeleted : Bool
deriving DecidableEq, Repr

/-- A payment record row. -/
structure PaymentRec where
  paymentDate : Int
  amountPaid : ℚ
deriving DecidableEq, Repr

/-- Modelled from the spec: the PaymentRecord model class and the
paid/remaining fields of the enhanced LedgerTransaction model are not in the
source tree (only their callers, admin registration and data migration are).
Per the spec, saving a PaymentRecord updates the owning obligation with
`paid_amount += amountPaid`, `remaining_amount = amount - paid_amount`, and
status COMPLETED when the remaining amount reaches 0, else PARTIAL when the
paid amount is positive, else unchanged. -/
def paymentRecordSave (t : LedgerTx) (amountPaid : ℚ) : LedgerTx :=
  let paid := t.paid + amountPaid
  let remaining := t.amount - paid
  { t with paid := paid, remaining := remaining,
           status := if remaining = 0 then "COMPLETED"
                     else if 0 < paid then "PARTIAL" else t.status }

/-- Payment recording of ledger_utils.py `record_payment`: raises when the
paid amount exceeds the remaining amount, before creating anything; otherwise
creates the PaymentRecord, whose save updates the owning obligation. -/
def record_payment (t : LedgerTx) (paymentDate : Int) (amountPaid : ℚ) :
    Except Unit (LedgerTx × PaymentRec) :=
  if t.remaining < amountPaid then .error ()
  else .ok (paymentRecordSave t amountPaid, ⟨paymentDate, amountPaid⟩)

/-- One payment attempt against an obligation: a failed validation leaves the
obligation unchanged (the view catches the error and writes nothing). -/
def applyPayment (t : LedgerTx) (p : Int × ℚ) : LedgerTx :=
  match record_payment t p.1 p.2 with
  | .ok (t2, _) => t2
  | .error _ => t

/-- A sequence of payment attempts against an obligation. -/
def applyPayments (t : LedgerTx) (ps : List (Int × ℚ)) : LedgerTx :=
  ps.foldl applyPayment t

/-- The five aging buckets of `get_aging_report`. -/
structure AgingBuckets where
  current : ℚ
  d0to30 : ℚ
  d31to60 : ℚ
  d61to90 : ℚ
  d90plus : ℚ
deriving DecidableEq, Repr

/-- All-zero buckets. -/
def emptyBuckets : AgingBuckets := ⟨0, 0, 0, 0, 0⟩

/-- Bucket accumulation of one obligation in `get_aging_report`: current when
there is no due date or it is not before today, else by days overdue. -/
def agingAdd (today : Int) (b : AgingBuckets) (t : LedgerTx) : AgingBuckets :=
  match t.dueDate with
  | none => { b with current := b.current + t.remaining }
  | some dd =>
    if today ≤ dd then { b with current := b.current + t.remaining }
    else
      let daysOverdue := today - dd
      if daysOverdue ≤ 30 then { b with d0to30 := b.d0to30 + t.remaining }
      else if daysOverdue ≤ 60 then { b with d31to60 := b.d31to60 + t.remaining }
      else if daysOverdue ≤ 90 then { b with d61to90 := b.d61to90 + t.remaining }
      else { b with d90plus := b.d90plus + t.remaining }

/-- Row filter of `calculate_aging`: live rows of the given transaction type
with status PENDING or PARTIAL, optionally restricted to one counterparty. -/
def agingFilter (ttype : String) (cp : Option String) (t : LedgerTx) : Bool :=
  !t.isDeleted && t.transactionType == ttype &&
    (t.status == "PENDING" || t.status == "PARTIAL") &&
    (match cp with | none => true | some c => t.counterparty == c)

/-- Inner `calculate_aging` of `get_aging_report`. -/
def calculate_aging (ttype : String) (cp : Option String) (today : Int)
    (txs : List LedgerTx) : AgingBuckets :=
  (txs.filter (agingFilter ttype cp)).foldl (agingAdd today) emptyBuckets

/-- Aging report of ledger_utils.py: receivable and payable buckets. -/
def get_aging_report (cp : Option String) (today : Int) (txs : List LedgerTx) :
    AgingBuckets × AgingBuckets :=
  (calculate_aging "RECEIVABLE" cp today txs,
   calculate_aging "PAYABLE" cp today txs)

end MHB

namespace MHB

/-- A recurring pattern row (task_models.py RecurringPattern, with the
positive repeat parameters of the spec data model). -/
structure RecPattern where
  frequency : String
  interval : Nat
  weekdays : List Nat
  dayOfMonth : Option Nat
  customDays : Option Nat
  endDate : Option Dte
  maxOccurrences : Option Int
deriving DecidableEq, Repr

/-- A task row (task_models.py Task, engine-relevant fields; categories, tags
and task references are carried as opaque identifiers). -/
structure RTask where
  id : Nat
  name : String
  description : String
  category : Option Nat
  priority : String
  status : String
  completeByDate : Option Dte
  startDate : Option Dte
  isRecurring : Bool
  recurringParent : Option Nat
  occurrenceCount : Int
  estimatedHours : Option ℚ
  tags : List Nat
deriving DecidableEq, Repr

/-- Month normalization loop of `_calculate_next_date` MONTHLY:
`while month > 12: month -= 12; year += 1`. -/
def monthLoop (m y : Nat) : Nat × Nat :=
  if 12 < m then monthLoop (m - 12) (y + 1) else (m, y)
termination_by m

/-- Weekday scan of `_calculate_next_date` WEEKLY: checks up to the given
number of consecutive days for one whose weekday is in the pattern. -/
def weeklyScan (weekdays : List Nat) : Dte → Nat → Option Dte
  | _, 0 => none
  | d, k + 1 =>
    if weekdays.contains (weekday d) then some d
    else weeklyScan weekdays (nextDay d) k

/-- Next-occurrence computation `Task._calculate_next_date(pattern)`, anchored
at the task `complete_by_date`. The error value models an uncaught
`ValueError` from `date.replace`: the MONTHLY branch catches the first one
and clamps the day to 28, the YEARLY branch catches nothing. -/
def calcNextDate (t : RTask) (p : RecPattern) : Except Unit (Option Dte) :=
  match t.completeByDate with
  | none => .ok none
  | some cur =>
    if p.frequency = "DAILY" then .ok (some (addDays cur p.interval))
    else if p.frequency = "WEEKLY" then
      .ok (weeklyScan p.weekdays (nextDay cur) (7 * p.interval))
    else if p.frequency = "MONTHLY" then
      let my := monthLoop (cur.m + p.interval) cur.y
      let day := p.dayOfMonth.getD cur.d
      if (Dte.mk my.2 my.1 day).valid then .ok (some ⟨my.2, my.1, day⟩)
      else if (Dte.mk my.2 my.1 28).valid then .ok (some ⟨my.2, my.1, 28⟩)
      else .error ()
    else if p.frequency = "YEARLY" then
      if (Dte.mk (cur.y + p.interval) cur.m cur.d).valid then
        .ok (some ⟨cur.y + p.interval, cur.m, cur.d⟩)
      else .error ()
    else if p.frequency = "CUSTOM" then
      match p.customDays with
      | some cd => if cd ≠ 0 then .ok (some (addDays cur cd)) else .ok none
      | none => .ok none
    else .ok none

/-- Recurring-task generation `Task.create_next_occurrence`: stops when the
(nonzero) maximum occurrence count is reached, when the next date is null, or
when the next date passes the pattern end date; otherwise creates exactly one
new task instance copying the task fields, with the next date as due date and
an incremented occurrence count. The fresh database id of the created row is
passed in. -/
def create_next_occurrence (t : RTask) (p : RecPattern) (newId : Nat) :
    Except Unit (Option RTask) :=
  let maxStop := match p.maxOccurrences with
    | some m => decide (m ≠ 0) && decide (m ≤ t.occurrenceCount)
    | none => false
  if maxStop then .ok none
  else
    match calcNextDate t p with
    | .error e => .error e
    | .ok none => .ok none
    | .ok (some nd) =>
      let endStop := match p.endDate with
        | some e => dteLt e nd
        | none => false
      if endStop then .ok none
      else .ok (some
        { id := newId, name := t.name, description := t.description,
          category := t.category, priority := t.priority, status := "Pending",
          completeByDate := some nd,
          startDate := if t.startDate.isSome then some (prevDay nd) else none,
          isRecurring := true,
          recurringParent := some (t.recurringParent.getD t.id),
          occurrenceCount := t.occurrenceCount + 1,
          estimatedHours := t.estimatedHours, tags := t.tags })

/-- Task completion `Task.mark_complete`: the task is saved as Completed, then
for a recurring task with a pattern the next occurrence is generated; an
uncaught date error propagates out of the completion call. -/
def mark_complete (t : RTask) (p : Option RecPattern) (newId : Nat) :
    RTask × Except Unit (Option RTask) :=
  let completed := { t with status := "Completed" }
  if t.isRecurring then
    match p with
    | some pat => (completed, create_next_occurrence completed pat newId)
    | none => (completed, .ok none)
  else (completed, .ok none)

/-- A reminder row (models.py Reminder, due-today relevant fields; snooze
timestamps and the evaluation instant are carried as integers). -/
structure Rmdr where
  isSnoozed : Bool
  snoozedUntil : Option Int
  isDismissed : Bool
  reminderType : String
  reminderDate : Dte
  weekdays : Option (List Nat)
  monthDays : Option (List Nat)
  customRepeatDays : Option Nat
deriving DecidableEq, Repr

/-- Due-today evaluation `Reminder.is_due_today`, parametrized by the current
date and the current timestamp. The linked reminder types always evaluate to
false in the source (tasks have no `deadline` attribute and the finance link
is unimplemented), as does an unknown type. -/
def is_due_today (r : Rmdr) (today : Dte) (now : Int) : Bool :=
  if r.isSnoozed &&
      (match r.snoozedUntil with
       | some su => decide (now < su)
       | none => false) then false
  else if r.isDismissed then false
  else if r.reminderType == "one_time" then r.reminderDate == today
  else if r.reminderType == "daily" then dteLe r.reminderDate today
  else if r.reminderType == "weekly" then
    if dteLt today r.reminderDate then false
    else match r.weekdays with
      | some ws => if ws.isEmpty then false else ws.contains (weekday today)
      | none => false
  else if r.reminderType == "monthly" then
    if dteLt today r.reminderDate then false
    else match r.monthDays with
      | some ds => if ds.isEmpty then r.reminderDate.d == today.d
                   else ds.contains today.d
      | none => r.reminderDate.d == today.d
  else if r.reminderType == "yearly" then
    if dteLt today r.reminderDate then false
    else r.reminderDate.d == today.d && r.reminderDate.m == today.m
  else if r.reminderType == "custom" then
    match r.customRepeatDays with
    | some c =>
      if c ≠ 0 && dteLe r.reminderDate today then
        daysBetween today r.reminderDate % (c : Int) == 0
      else false
    | none => false
  else false

end MHB

namespace MHB

/-- C9: a reminder snoozed until a future timestamp, or dismissed, is never
due today, regardless of its type, anchor date and pattern fields. -/
theorem snoozed_or_dismissed_never_due (r : Rmdr) (today : Dte) (now : Int)
    (h : (r.isSnoozed = true ∧ ∃ su, r.snoozedUntil = some su ∧ now < su)
         ∨ r.isDismissed = true) :
    is_due_today r today now = false := by
  unfold is_due_today
  rcases h with ⟨hs, su, hsu, hlt⟩ | hd
  · rw [hs, hsu]
    simp [hlt]
  · rw [hd]
    split <;> simp

/-- Witness for C9: a daily reminder anchored in the past, hence otherwise
due, evaluates to not-due while snoozed until a future timestamp. -/
def rSnoozed : Rmdr := ⟨true, some 10, false, "daily", ⟨2024, 1, 1⟩, none, none, none⟩

theorem snoozed_or_dismissed_never_due_witness :
    is_due_today rSnoozed ⟨2024, 6, 1⟩ 5 = false :=
  snoozed_or_dismissed_never_due rSnoozed ⟨2024, 6, 1⟩ 5
    (Or.inl ⟨rfl, 10, rfl, by decide⟩)

/-- C3: recording a payment fails exactly when the paid amount exceeds the
remaining amount, creating nothing; otherwise it creates a payment record and
updates paid, remaining and status of the obligation as specified. -/
theorem record_payment_spec (t : LedgerTx) (pd : Int) (amt : ℚ) :
    (t.remaining < amt → record_payment t pd amt = .error ()) ∧
    (amt ≤ t.remaining →
      record_payment t pd amt = .ok
        ({ t with paid := t.paid + amt,
                  remaining := t.amount - (t.paid + amt),
                  status := if t.amount - (t.paid + amt) = 0 then "COMPLETED"
                            else if 0 < t.paid + amt then "PARTIAL"
                            else t.status },
         ⟨pd, amt⟩)) := by
  constructor
  · intro h
    simp [record_payment, h]
  · intro h
    simp [record_payment, paymentRecordSave, not_lt.mpr h]

/-- Witness obligation for C3: remaining amount 200 (Scenario E). -/
def tEx : LedgerTx := ⟨"RECEIVABLE", "X", "PARTIAL", none, 500, 300, 200, false⟩

theorem record_payment_spec_witness :
    record_payment tEx 7 250 = .error () ∧
    record_payment tEx 7 200 =
      .ok ({ tEx with paid := 500, remaining := 0, status := "COMPLETED" }, ⟨7, 200⟩) := by
  refine ⟨(record_payment_spec tEx 7 250).1 (by norm_num [tEx]), ?_⟩
  have h := (record_payment_spec tEx 7 200).2 (by norm_num [tEx])
  rw [h]
  norm_num [tEx]

/-- C10: completing a recurring YEARLY task anchored on February 29 raises an
uncaught error whenever the target year is not a leap year. -/
theorem yearly_feb29_completion_raises (t : RTask) (p : RecPattern) (y newId : Nat)
    (hc : t.completeByDate = some ⟨y, 2, 29⟩) (hf : p.frequency = "YEARLY")
    (hleap : isLeap (y + p.interval) = false)
    (hrec : t.isRecurring = true) (hmax : p.maxOccurrences = none) :
    (mark_complete t (some p) newId).2 = .error () := by
  unfold mark_complete create_next_occurrence calcNextDate
  rw [hrec]
  simp [hmax, hc, hf, Dte.valid, daysInMonth, hleap]

/-- Witness task and pattern for C10: anchor 2024-02-29, yearly interval 1,
target year 2025 is not leap. -/
def tFeb29 : RTask :=
  ⟨3, "t", "", none, "Medium", "Pending", some ⟨2024, 2, 29⟩, none, true, none, 0, none, []⟩

def pYearly : RecPattern := ⟨"YEARLY", 1, [], none, none, none, none⟩

theorem yearly_feb29_completion_raises_witness :
    (mark_complete tFeb29 (some pYearly) 4).2 = .error () :=
  yearly_feb29_completion_raises tFeb29 pYearly 2024 4 rfl rfl (by decide) rfl rfl

/-- One payment attempt preserves the remaining-amount invariant. -/
theorem applyPayment_invariant (t : LedgerTx) (p : Int × ℚ)
    (h1 : t.remaining = t.amount - t.paid) (h2 : 0 ≤ t.remaining) :
    (applyPayment t p).remaining = (applyPayment t p).amount - (applyPayment t p).paid ∧
    0 ≤ (applyPayment t p).remaining := by
  by_cases hlt : t.remaining < p.2
  · simpa [applyPayment, record_payment, hlt] using ⟨h1, h2⟩
  · rw [not_lt] at hlt
    constructor
    · simp [applyPayment, record_payment, paymentRecordSave, not_lt.mpr, hlt, not_lt_of_ge hlt]
    · simp only [applyPayment, record_payment, paymentRecordSave,
        if_neg (not_lt.mpr hlt)]
      simp only [h1] at hlt ⊢
      linarith

/-- C8: after any sequence of payment attempts against an obligation whose
stored remaining amount satisfies the creation invariant, the invariant
`remaining = amount - paid` still holds and the remaining amount is never
negative. -/
theorem remaining_amount_invariant (t0 : LedgerTx) (ps : List (Int × ℚ))
    (h1 : t0.remaining = t0.amount - t0.paid) (h2 : 0 ≤ t0.remaining) :
    (applyPayments t0 ps).remaining =
        (applyPayments t0 ps).amount - (applyPayments t0 ps).paid ∧
    0 ≤ (applyPayments t0 ps).remaining := by
  induction ps generalizing t0 with
  | nil => exact ⟨h1, h2⟩
  | cons p ps ih =>
    have step := applyPayment_invariant t0 p h1 h2
    simpa [applyPayments, List.foldl_cons] using ih (applyPayment t0 p) step.1 step.2

/-- Witness obligation for C8: a freshly created pending obligation of 1000. -/
def tInv : LedgerTx := ⟨"PAYABLE", "Y", "PENDING", some 30, 1000, 0, 1000, false⟩

theorem remaining_amount_invariant_witness :
    (applyPayments tInv [(1, 100), (2, 2000), (3, 900)]).remaining =
        (applyPayments tInv [(1, 100), (2, 2000), (3, 900)]).amount -
          (applyPayments tInv [(1, 100), (2, 2000), (3, 900)]).paid ∧
    0 ≤ (applyPayments tInv [(1, 100), (2, 2000), (3, 900)]).remaining :=
  remaining_amount_invariant tInv [(1, 100), (2, 2000), (3, 900)] (by norm_num [tInv])
    (by norm_num [tInv])

end MHB

namespace MHB

/-- The month normalization loop lands in 1..12 for positive input months. -/
theorem monthLoop_bounds : ∀ m y : Nat, 1 ≤ m →
    1 ≤ (monthLoop m y).1 ∧ (monthLoop m y).1 ≤ 12 := by
  intro m
  induction m using Nat.strong_induction_on with
  | _ m ih =>
    intro y h
    rw [monthLoop]
    split
    · next h12 => exact ih (m - 12) (by omega) (y + 1) (by omega)
    · next h12 => exact ⟨h, by omega⟩

/-- Every real month has at least 28 days. -/
theorem daysInMonth_ge_28 (y m : Nat) (h1 : 1 ≤ m) (h2 : m ≤ 12) :
    28 ≤ daysInMonth y m := by
  interval_cases m <;> simp [daysInMonth]
  split <;> omega

/-- C4 (amended): the task-recurrence month-offset addition keeps the anchor
day of month when it exists in the target month and otherwise clamps to day
28; the installment month-offset addition `desired_date` does not clamp. -/
theorem task_monthly_clamps_to_28 (t : RTask) (p : RecPattern) (cur : Dte)
    (hc : t.completeByDate = some cur) (hv : cur.valid = true)
    (hf : p.frequency = "MONTHLY") (hd : p.dayOfMonth = none) :
    calcNextDate t p = .ok (some
      (if cur.d ≤ daysInMonth (monthLoop (cur.m + p.interval) cur.y).2
              (monthLoop (cur.m + p.interval) cur.y).1
       then ⟨(monthLoop (cur.m + p.interval) cur.y).2,
             (monthLoop (cur.m + p.interval) cur.y).1, cur.d⟩
       else ⟨(monthLoop (cur.m + p.interval) cur.y).2,
             (monthLoop (cur.m + p.interval) cur.y).1, 28⟩)) := by
  simp only [Dte.valid, Bool.and_eq_true, decide_eq_true_eq] at hv
  obtain ⟨⟨⟨hm1, hm2⟩, hd1⟩, hd2⟩ := hv
  have hb := monthLoop_bounds (cur.m + p.interval) cur.y (by omega)
  have h28 := daysInMonth_ge_28 (monthLoop (cur.m + p.interval) cur.y).2
    (monthLoop (cur.m + p.interval) cur.y).1 hb.1 hb.2
  unfold calcNextDate
  rw [hc, hf]
  by_cases hle : cur.d ≤ daysInMonth (monthLoop (cur.m + p.interval) cur.y).2
      (monthLoop (cur.m + p.interval) cur.y).1
  · simp [Dte.valid, hb.1, hb.2, hd1, hle, hd]
  · simp [Dte.valid, hb.1, hb.2, hd1, hle, hd, h28]

/-- Witness task for C4: monthly pattern anchored 2024-01-31, interval 1. -/
def tJan31 : RTask :=
  ⟨5, "t", "", none, "Medium", "Pending", some ⟨2024, 1, 31⟩, none, true, none, 0, none, []⟩

def pMonthly : RecPattern := ⟨"MONTHLY", 1, [], none, none, none, none⟩

theorem task_monthly_clamps_to_28_witness :
    calcNextDate tJan31 pMonthly = .ok (some ⟨2024, 2, 28⟩) := by
  have hm : monthLoop ((Dte.mk 2024 1 31).m + pMonthly.interval) (Dte.mk 2024 1 31).y =
      (2, 2024) := by
    show monthLoop 2 2024 = (2, 2024)
    rw [monthLoop]
    norm_num
  have h := task_monthly_clamps_to_28 tJan31 pMonthly ⟨2024, 1, 31⟩ rfl (by decide) rfl rfl
  rw [hm] at h
  rw [h]
  norm_num [daysInMonth, isLeap]

/-- Counterexample for C4: `desired_date` anchored 2024-01-31 with offset 1
raises instead of clamping to 2024-02-28. -/
theorem desired_date_no_clamp_counterexample :
    desired_date ⟨2024, 1, 31⟩ 1 = none ∧
    desired_date ⟨2024, 1, 31⟩ 1 ≠ some ⟨2024, 2, 28⟩ := by decide

end MHB

namespace MHB

/-- Stop conditions of claim C6, with the maximum-occurrence condition
restricted to nonzero values as the code actually checks it. -/
def claimStop (t : RTask) (p : RecPattern) (nd? : Option Dte) : Bool :=
  nd?.isNone ||
  (match nd?, p.endDate with
   | some nd, some e => dteLt e nd
   | _, _ => false) ||
  (match p.maxOccurrences with
   | some m => decide (m ≠ 0) && decide (t.occurrenceCount + 1 > m)
   | none => false)

/-- C6 (amended): completing a recurring task creates a new instance exactly
when none of the stop conditions holds (with a nonzero configured maximum),
and the created instance copies the task fields with the next date as due
date, the flattened recurring parent, and an incremented occurrence count. -/
theorem onComplete_spec (t : RTask) (p : RecPattern) (newId : Nat) (nd? : Option Dte)
    (hrec : t.isRecurring = true) (hnd : calcNextDate t p = .ok nd?) :
    ((∃ nt, (mark_complete t (some p) newId).2 = .ok (some nt)) ↔
       claimStop t p nd? = false) ∧
    (∀ nt, (mark_complete t (some p) newId).2 = .ok (some nt) →
       ∃ nd, nd? = some nd ∧
         nt = { id := newId, name := t.name, description := t.description,
                category := t.category, priority := t.priority, status := "Pending",
                completeByDate := some nd,
                startDate := if t.startDate.isSome then some (prevDay nd) else none,
                isRecurring := true,
                recurringParent := some (t.recurringParent.getD t.id),
                occurrenceCount := t.occurrenceCount + 1,
                estimatedHours := t.estimatedHours, tags := t.tags }) := by
  have hmc : (mark_complete t (some p) newId).2 = create_next_occurrence t p newId := by
    unfold mark_complete
    rw [hrec]
    rfl
  rw [hmc]
  unfold create_next_occurrence
  rw [hnd]
  rcases hmax : p.maxOccurrences with _ | m
  · rcases nd? with _ | nd
    · simp [claimStop, hmax]
    · rcases hend : p.endDate with _ | e
      · simp [claimStop, hmax, hend]
      · by_cases hlt : dteLt e nd = true
        · simp [claimStop, hmax, hend, hlt]
        · simp [claimStop, hmax, hend, hlt]
  · by_cases hm0 : m = 0
    · subst hm0
      rcases nd? with _ | nd
      · simp [claimStop, hmax]
      · rcases hend : p.endDate with _ | e
        · simp [claimStop, hmax, hend]
        · by_cases hlt : dteLt e nd = true
          · simp [claimStop, hmax, hend, hlt]
          · simp [claimStop, hmax, hend, hlt]
    · by_cases hocc : m ≤ t.occurrenceCount
      · have : t.occurrenceCount + 1 > m := by omega
        simp [claimStop, hmax, hm0, hocc, this]
      · have hocc2 : ¬ t.occurrenceCount + 1 > m := by omega
        rcases nd? with _ | nd
        · simp [claimStop, hmax, hm0, hocc, hocc2]
        · rcases hend : p.endDate with _ | e
          · simp [claimStop, hmax, hm0, hocc, hocc2, hend]
          · by_cases hlt : dteLt e nd = true
            · simp [claimStop, hmax, hm0, hocc, hocc2, hend, hlt]
            · simp [claimStop, hmax, hm0, hocc, hocc2, hend, hlt]

/-- Witness task and pattern for C6: a daily recurring task below its
occurrence limit creates the next instance. -/
def tDaily : RTask :=
  ⟨11, "water plants", "", none, "Low", "Pending", some ⟨2024, 5, 1⟩, none, true, none, 2, none, []⟩

def pDaily : RecPattern := ⟨"DAILY", 1, [], none, none, some ⟨2024, 12, 31⟩, some 5⟩

theorem onComplete_spec_witness :
    ∃ nt, (mark_complete tDaily (some pDaily) 12).2 = .ok (some nt) := by
  have h := onComplete_spec tDaily pDaily 12 (some ⟨2024, 5, 2⟩) rfl rfl
  exact h.1.mpr (by decide)

/-- Counterexample for C6: with `max_occurrences` set to 0 the claimed stop
condition `occurrence_count + 1 > max_occurrences` holds, yet a new task is
created, because the code skips the falsy zero limit. -/
def pMaxZero : RecPattern := ⟨"DAILY", 1, [], none, none, none, some 0⟩

def tMaxZero : RTask :=
  ⟨7, "n", "d", none, "High", "Pending", some ⟨2024, 5, 1⟩, none, true, none, 0, none, []⟩

def ntMaxZero : RTask :=
  ⟨8, "n", "d", none, "High", "Pending", some ⟨2024, 5, 2⟩, none, true, some 7, 1, none, []⟩

theorem onComplete_maxZero_counterexample :
    pMaxZero.maxOccurrences = some 0 ∧
    tMaxZero.occurrenceCount + 1 > 0 ∧
    (mark_complete tMaxZero (some pMaxZero) 8).2 = .ok (some ntMaxZero) :=
  ⟨rfl, by decide, rfl⟩

end MHB

namespace MHB

/-- Aging bucket index determined by today minus the due date: 0 = current
(no due date or not yet due), 1 = 1 to 30 days overdue, 2 = 31 to 60,
3 = 61 to 90, 4 = beyond 90. -/
def bucketOf (today : Int) (dd : Option Int) : Nat :=
  match dd with
  | none => 0
  | some d =>
    if today ≤ d then 0
    else if today - d ≤ 30 then 1
    else if today - d ≤ 60 then 2
    else if today - d ≤ 90 then 3
    else 4

/-- Sum of the remaining amounts of the rows falling in bucket `k`. -/
def bucketSum (today : Int) (k : Nat) (l : List LedgerTx) : ℚ :=
  (l.map (fun t => if bucketOf today t.dueDate = k then t.remaining else 0)).sum

/-- One aging step adds the remaining amount to the bucket selected by
`bucketOf`. -/
theorem agingAdd_eq (today : Int) (b : AgingBuckets) (t : LedgerTx) :
    agingAdd today b t =
      ⟨b.current + (if bucketOf today t.dueDate = 0 then t.remaining else 0),
       b.d0to30 + (if bucketOf today t.dueDate = 1 then t.remaining else 0),
       b.d31to60 + (if bucketOf today t.dueDate = 2 then t.remaining else 0),
       b.d61to90 + (if bucketOf today t.dueDate = 3 then t.remaining else 0),
       b.d90plus + (if bucketOf today t.dueDate = 4 then t.remaining else 0)⟩ := by
  unfold agingAdd
  rcases hdd : t.dueDate with _ | d
  · simp [bucketOf, hdd]
  · simp only [bucketOf, hdd]
    split_ifs with h1 h2 h3 h4 <;> simp_all

/-- The aging fold accumulates exactly the per-bucket sums. -/
theorem foldl_agingAdd (today : Int) (l : List LedgerTx) (b : AgingBuckets) :
    l.foldl (agingAdd today) b =
      ⟨b.current + bucketSum today 0 l, b.d0to30 + bucketSum today 1 l,
       b.d31to60 + bucketSum today 2 l, b.d61to90 + bucketSum today 3 l,
       b.d90plus + bucketSum today 4 l⟩ := by
  induction l generalizing b with
  | nil => simp [bucketSum]
  | cons t l ih =>
    rw [List.foldl_cons, ih, agingAdd_eq]
    simp [bucketSum, add_assoc]

/-- Single-obligation list for Scenario D: amount 500 due 45 days before
today, status PENDING. -/
def txScenD : LedgerTx := ⟨"RECEIVABLE", "C", "PENDING", some 955, 500, 0, 500, false⟩

/-- C7: the aging report sums the remaining amounts of PENDING and PARTIAL
obligations per overdue bucket, split by RECEIVABLE and PAYABLE; an
obligation of 500 due 45 days ago lands in the 31-60 bucket. -/
theorem aging_report_spec :
    (∀ (cp : Option String) (today : Int) (txs : List LedgerTx),
       get_aging_report cp today txs =
         (⟨bucketSum today 0 (txs.filter (agingFilter "RECEIVABLE" cp)),
           bucketSum today 1 (txs.filter (agingFilter "RECEIVABLE" cp)),
           bucketSum today 2 (txs.filter (agingFilter "RECEIVABLE" cp)),
           bucketSum today 3 (txs.filter (agingFilter "RECEIVABLE" cp)),
           bucketSum today 4 (txs.filter (agingFilter "RECEIVABLE" cp))⟩,
          ⟨bucketSum today 0 (txs.filter (agingFilter "PAYABLE" cp)),
           bucketSum today 1 (txs.filter (agingFilter "PAYABLE" cp)),
           bucketSum today 2 (txs.filter (agingFilter "PAYABLE" cp)),
           bucketSum today 3 (txs.filter (agingFilter "PAYABLE" cp)),
           bucketSum today 4 (txs.filter (agingFilter "PAYABLE" cp))⟩)) ∧
    (get_aging_report none 1000 [txScenD]).1 = ⟨0, 0, 500, 0, 0⟩ := by
  constructor
  · intro cp today txs
    unfold get_aging_report calculate_aging
    rw [foldl_agingAdd, foldl_agingAdd]
    simp [emptyBuckets]
  · simp [get_aging_report, calculate_aging, agingFilter, txScenD, agingAdd, emptyBuckets]

end MHB

namespace MHB

set_option maxRecDepth 8000

/-- Counterexample for C2: the ledger installment scheduler advances MONTHLY
due dates by 30 days per installment, so the second installment of
Scenario A is due 2024-01-31, not 2024-02-01. -/
theorem createSchedule_monthly_counterexample :
    calculate_due_date ⟨2024, 1, 1⟩ 1 "MONTHLY" none = .ok ⟨2024, 1, 31⟩ ∧
    (⟨2024, 1, 31⟩ : Dte) ≠ ⟨2024, 2, 1⟩ := by
  exact ⟨rfl, by decide⟩

/-- C2 (amended): `createSchedule(12000, 12, MONTHLY, 2024-01-01)` produces
12 installments of amount 1000, all PENDING, but with due dates advancing by
30 days (2024-01-01, 2024-01-31, 2024-03-01, ...); the financial product
creation path `create_finance` is the one that advances by calendar months,
producing due dates 2024-01-01 through 2024-12-01 with amount 1000 and
status Pending. -/
theorem createSchedule_scenarioA :
    (create_installment_transactions 12000 12 "MONTHLY" ⟨2024, 1, 1⟩ none "PENDING").map
        (fun l => l.map (·.dueDate)) =
      .ok [⟨2024, 1, 1⟩, ⟨2024, 1, 31⟩, ⟨2024, 3, 1⟩, ⟨2024, 3, 31⟩, ⟨2024, 4, 30⟩,
           ⟨2024, 5, 30⟩, ⟨2024, 6, 29⟩, ⟨2024, 7, 29⟩, ⟨2024, 8, 28⟩, ⟨2024, 9, 27⟩,
           ⟨2024, 10, 27⟩, ⟨2024, 11, 26⟩] ∧
    (create_installment_transactions 12000 12 "MONTHLY" ⟨2024, 1, 1⟩ none "PENDING").map
        (fun l => l.map (fun i => (i.amount, i.status))) =
      .ok (List.replicate 12 ((1000 : ℚ), "PENDING")) ∧
    ((create_finance "home" "Loan" "" 12000 12 ⟨2024, 1, 1⟩).2.1.map (·.date)) =
      [⟨2024, 1, 1⟩, ⟨2024, 2, 1⟩, ⟨2024, 3, 1⟩, ⟨2024, 4, 1⟩, ⟨2024, 5, 1⟩,
       ⟨2024, 6, 1⟩, ⟨2024, 7, 1⟩, ⟨2024, 8, 1⟩, ⟨2024, 9, 1⟩, ⟨2024, 10, 1⟩,
       ⟨2024, 11, 1⟩, ⟨2024, 12, 1⟩] ∧
    ((create_finance "home" "Loan" "" 12000 12 ⟨2024, 1, 1⟩).2.1.map
        (fun t => (t.amount, t.status))) =
      List.replicate 12 ((1000 : ℚ), "Pending") ∧
    (create_finance "home" "Loan" "" 12000 12 ⟨2024, 1, 1⟩).2.2 = none := by
  refine ⟨rfl, ?_, rfl, ?_, rfl⟩
  · show Except.ok (List.replicate 12 ((12000 : ℚ) / ((12 : Nat) : ℚ), "PENDING")) = _
    norm_num
  · show List.replicate 12 (round2 ((12000 : ℚ) / ((12 : Nat) : ℚ)), "Pending") = _
    norm_num [round2, roundHalfEven]

end MHB

namespace MHB

/-- Projection of the transaction fields never touched by the relabeling
phases: amount, date, status and type. -/
def coreOf (t : FinTx) : ℚ × Dte × String × String :=
  (t.amount, t.date, t.status, t.ttype)

/-- The name phase only rewrites descriptions. -/
theorem relabel_core (name lbl : String) (i : Nat) (txs : List FinTx) :
    (relabel name lbl i txs).map coreOf = txs.map coreOf := by
  induction txs generalizing i with
  | nil => rfl
  | cons t ts ih => simp [relabel, coreOf, ih]

/-- The type phase loop only rewrites categories, mode details and
descriptions. -/
theorem recat_core (name cat md lbl : String) (i : Nat) (txs : List FinTx) :
    (recat name cat md lbl i txs).map coreOf = txs.map coreOf := by
  induction txs generalizing i with
  | nil => rfl
  | cons t ts ih => simp [recat, coreOf, ih]

/-- The type phase preserves amount, date, status and type of every
transaction. -/
theorem retype_core (p : FinProd) (inp : FinInput) (txs : List FinTx) :
    ((retype p inp txs).2).map coreOf = txs.map coreOf := by
  unfold retype
  split
  · exact recat_core _ _ _ _ _ _
  · rfl

/-- The type phase touches no product field except the type. -/
theorem retype_prod (p : FinProd) (inp : FinInput) (txs : List FinTx) :
    (retype p inp txs).1.startedOn = p.startedOn ∧
    (retype p inp txs).1.amount = p.amount ∧
    (retype p inp txs).1.count = p.count := by
  unfold retype
  split
  · exact ⟨rfl, rfl, rfl⟩
  · exact ⟨rfl, rfl, rfl⟩

/-- The start-date phase is a no-op when the requested start date equals the
stored one. -/
theorem restartPhase_skip (p : FinProd) (inp : FinInput) (txs : List FinTx)
    (h : inp.startedOn = p.startedOn) :
    restartPhase p inp txs = (p, txs, none) := by
  simp [restartPhase, h]

/-- The resize step only ever reports a missing last transaction or an
invalid date. -/
theorem resize_err (prev : Nat) (inp : FinInput) (emi : ℚ) (cs : Bool)
    (md : String) (txs : List FinTx) (e : FinErr)
    (h : (resize prev inp emi cs md txs).2 = some e) :
    e = FinErr.noLast ∨ e = FinErr.dateInvalid := by
  unfold resize at h
  simp only [] at h
  split at h
  · split at h
    · simp_all
    · split at h <;> simp_all
  · split at h <;> simp_all

/-- A failing amount/count validation returns before the phase mutates
anything. -/
theorem amountPhase_valfail (p : FinProd) (inp : FinInput) (txs : List FinTx) (e : FinErr)
    (he : (amountPhase p inp txs).2.2 = some e)
    (hval : e = FinErr.amountBelowPaid ∨ e = FinErr.countBelowCompleted ∨
            e = FinErr.countEqCompleted) :
    amountPhase p inp txs = (p, txs, some e) := by
  unfold amountPhase at he ⊢
  simp only [] at he ⊢
  split at he
  · next hch =>
    rw [if_pos hch]
    split at he
    · next hcc =>
      rw [if_pos hcc]
      split at he
      · next e2 hv =>
        simp_all
      · next hv =>
        simp only [] at he
        have h2 := resize_err _ _ _ _ _ _ _ he
        rcases h2 with h2 | h2 <;> subst h2 <;> rcases hval with h | h | h <;> simp at h
    · next hcc =>
      rw [if_neg hcc]
      simp only [] at he
      have h2 := resize_err _ _ _ _ _ _ _ he
      rcases h2 with h2 | h2 <;> subst h2 <;> rcases hval with h | h | h <;> simp at h
  · next hch =>
    simp at he


/-- The amount/count validation only reports its three errors. -/
theorem amountValidation_cases (inp : FinInput) (paid : ℚ) (cc : Nat) (e : FinErr)
    (h : amountValidation inp paid cc = some e) :
    e = FinErr.amountBelowPaid ∨ e = FinErr.countBelowCompleted ∨
    e = FinErr.countEqCompleted := by
  unfold amountValidation at h
  split_ifs at h <;> simp_all

/-- The amount/installment phase never reports the count or start-date
errors of the other phases. -/
theorem amountPhase_err_cases (p : FinProd) (inp : FinInput) (txs : List FinTx) (e : FinErr)
    (h : (amountPhase p inp txs).2.2 = some e) :
    e = FinErr.amountBelowPaid ∨ e = FinErr.countBelowCompleted ∨
    e = FinErr.countEqCompleted ∨ e = FinErr.noLast ∨ e = FinErr.dateInvalid := by
  unfold amountPhase at h
  simp only [] at h
  split at h
  · split at h
    · split at h
      · next e2 hv =>
        simp only [Option.some.injEq] at h
        subst h
        have := amountValidation_cases _ _ _ _ hv
        tauto
      · next hv =>
        simp only [] at h
        have := resize_err _ _ _ _ _ _ _ h
        tauto
    · simp only [] at h
      have := resize_err _ _ _ _ _ _ _ h
      tauto
  · simp at h

/-- C1 (amended): when a count or amount validation fails and the requested
start date equals the stored one, the product row is untouched and every
transaction keeps its amount, date, status and type; only the relabeling
fields may already have been rewritten. -/
theorem update_finance_valfail_preserves_core (s : FinState) (inp : FinInput)
    (hstart : inp.startedOn = s.prod.startedOn) (e : FinErr)
    (he : (update_finance_detail s inp).2 = some e)
    (hval : e = FinErr.countLtOne ∨ e = FinErr.amountBelowPaid ∨
            e = FinErr.countBelowCompleted ∨ e = FinErr.countEqCompleted) :
    (update_finance_detail s inp).1.prod = s.prod ∧
    (update_finance_detail s inp).1.txs.map coreOf = s.txs.map coreOf := by
  unfold update_finance_detail at he ⊢
  by_cases h0 : inp.count = 0
  · rw [if_pos h0] at he ⊢
    exact ⟨rfl, rfl⟩
  · rw [if_neg h0] at he ⊢
    simp only [] at he ⊢
    rw [restartPhase_skip _ _ _
      (hstart.trans ((retype_prod
        (FinProd.mk inp.name s.prod.ptype s.prod.startedOn s.prod.amount s.prod.count) inp
        (relabel inp.name (subLabel inp.itype) 1 s.txs)).1).symm)] at he ⊢
    simp only [] at he ⊢
    split at he
    · next e2 hsome =>
      have he2 : e2 = e := Option.some.inj he
      subst he2
      have hcases := amountPhase_err_cases _ _ _ _ hsome
      have hval2 : e2 = FinErr.amountBelowPaid ∨ e2 = FinErr.countBelowCompleted ∨
          e2 = FinErr.countEqCompleted := by
        rcases hval with h | h | h | h <;> rcases hcases with h2 | h2 | h2 | h2 | h2 <;> simp_all
      have hap := amountPhase_valfail _ _ _ _ hsome hval2
      exact ⟨rfl,
        (congrArg (List.map coreOf) (congrArg (fun x => x.2.1) hap)).trans
          ((retype_core _ _ _).trans (relabel_core _ _ _ _))⟩
    · next hnone =>
      have hx : (none : Option FinErr) = some e := he
      exact absurd hx (by simp)


/-- Concrete state for C1: a Loan of 200 in 2 installments, both completed. -/
def stC1 : FinState :=
  ⟨⟨"a", "Loan", ⟨2024, 1, 1⟩, 200, 2⟩,
   [⟨"Expense", "EMI", ⟨2024, 1, 1⟩, 100, "a EMI 1", "Completed", "Loan"⟩,
    ⟨"Expense", "EMI", ⟨2024, 2, 1⟩, 100, "a EMI 2", "Completed", "Loan"⟩]⟩

/-- Concrete request for C1: rename to b and drop the count below the
completed count. -/
def inpC1 : FinInput := ⟨"b", "Loan", ⟨2024, 1, 1⟩, 200, 1, ""⟩

/-- Counterexample for C1: the update fails with CountBelowCompleted, yet the
transaction descriptions were already rewritten and saved by the name phase,
so the records are not left exactly as they were. -/
theorem update_finance_not_atomic_counterexample :
    (update_finance_detail stC1 inpC1).2 = some FinErr.countBelowCompleted ∧
    ((update_finance_detail stC1 inpC1).1.txs.map (·.description)) =
      ["b EMI 1", "b EMI 2"] ∧
    (stC1.txs.map (·.description)) = ["a EMI 1", "a EMI 2"] := by
  refine ⟨?_, ?_, rfl⟩ <;>
    norm_num +decide [update_finance_detail, stC1, inpC1, relabel, retype, restartPhase,
      amountPhase, amountValidation, resize, subLabel, mkDesc, financeCategory,
      repriceTxs, shrinkTxs, mkNewTxs, desired_date]

/-- Witness for C1 as amended: in the same failing run the amounts, dates,
statuses and types of all records are unchanged. -/
theorem update_finance_valfail_preserves_core_witness :
    (update_finance_detail stC1 inpC1).1.prod = stC1.prod ∧
    (update_finance_detail stC1 inpC1).1.txs.map coreOf = stC1.txs.map coreOf :=
  update_finance_valfail_preserves_core stC1 inpC1 rfl FinErr.countBelowCompleted
    (by norm_num [update_finance_detail, stC1, inpC1, relabel, retype, restartPhase,
      amountPhase, amountValidation, resize, subLabel, mkDesc, financeCategory,
      repriceTxs, shrinkTxs, mkNewTxs, desired_date])
    (by tauto)

end MHB

namespace MHB

/-- Equal core projections give equal date lists. -/
theorem core_dates (l1 l2 : List FinTx) (h : l1.map coreOf = l2.map coreOf) :
    l1.map (fun t => t.date) = l2.map (fun t => t.date) := by
  induction l1 generalizing l2 with
  | nil => cases l2 <;> simp_all
  | cons t ts ih =>
    cases l2 with
    | nil => simp at h
    | cons u us =>
      simp only [List.map_cons, List.cons.injEq] at h ⊢
      exact ⟨congrArg (fun x => x.2.1) h.1, ih us h.2⟩

/-- Equal core projections give equal completed-installment amount lists. -/
theorem core_completed (l1 l2 : List FinTx) (h : l1.map coreOf = l2.map coreOf) :
    (l1.filter (fun t => t.status = "Completed")).map (fun t => t.amount) =
    (l2.filter (fun t => t.status = "Completed")).map (fun t => t.amount) := by
  induction l1 generalizing l2 with
  | nil => cases l2 <;> simp_all
  | cons t ts ih =>
    cases l2 with
    | nil => simp at h
    | cons u us =>
      simp only [List.map_cons, List.cons.injEq] at h
      have hst : t.status = u.status := congrArg (fun x => x.2.2.1) h.1
      have ham : t.amount = u.amount := congrArg (fun x => x.1) h.1
      rw [List.filter_cons, List.filter_cons, hst]
      by_cases hc : u.status = "Completed"
      · simp [hc, ham, ih us h.2]
      · simp [hc, ih us h.2]

/-- Repricing changes only amounts: dates are preserved. -/
theorem reprice_dates (emi : ℚ) (cs : Bool) (txs : List FinTx) :
    (repriceTxs emi cs txs).map (fun t => t.date) = txs.map (fun t => t.date) := by
  induction txs with
  | nil => rfl
  | cons t ts ih =>
    simp only [repriceTxs, List.map_cons] at ih ⊢
    have hd : (if (cs && t.status == "Completed") = true then t
        else { t with amount := emi }).date = t.date := by
      split <;> rfl
    rw [hd, ih]

/-- Repricing preserves the number of transactions. -/
theorem reprice_length (emi : ℚ) (cs : Bool) (txs : List FinTx) :
    (repriceTxs emi cs txs).length = txs.length := by
  simp [repriceTxs]

/-- The per-installment amount the amount/installment phase computes, as a
function of the transaction set and the request. -/
def emiOf (txs : List FinTx) (inp : FinInput) : ℚ :=
  let completed := txs.filter (fun t => t.status = "Completed")
  if completed.length ≠ 0 then
    if inp.count - completed.length ≠ 0 then
      round2 ((inp.amount - (completed.map (fun t => t.amount)).sum) /
        ((inp.count - completed.length : Nat) : ℚ))
    else 0
  else round2 (inp.amount / (inp.count : ℚ))

/-- Equal core projections give the same recomputed per-installment amount. -/
theorem emiOf_congr (l1 l2 : List FinTx) (inp : FinInput)
    (h : l1.map coreOf = l2.map coreOf) : emiOf l1 inp = emiOf l2 inp := by
  have hc := core_completed l1 l2 h
  have hlen : (l1.filter (fun t => t.status = "Completed")).length =
      (l2.filter (fun t => t.status = "Completed")).length := by
    have := congrArg List.length hc
    simpa using this
  have hsum : ((l1.filter (fun t => t.status = "Completed")).map (fun t => t.amount)).sum =
      ((l2.filter (fun t => t.status = "Completed")).map (fun t => t.amount)).sum :=
    congrArg List.sum hc
  unfold emiOf
  simp only [hlen, hsum]

/-- A successful creation loop creates the requested number of transactions,
all Pending, at the recomputed amount, all dated one month after the last
existing transaction. -/
theorem mkNewTxs_ok (last : FinTx) (emi : ℚ) (name lbl md : String) :
    ∀ (k i : Nat), (mkNewTxs last emi name lbl md i k).2 = false →
      (mkNewTxs last emi name lbl md i k).1.length = k ∧
      ∀ t ∈ (mkNewTxs last emi name lbl md i k).1,
        t.status = "Pending" ∧ t.amount = emi ∧ desired_date last.date 1 = some t.date := by
  intro k
  induction k with
  | zero => intro i _; exact ⟨rfl, by simp [mkNewTxs]⟩
  | succ k ih =>
    intro i hok
    rcases hd : desired_date last.date 1 with _ | dd
    · exfalso
      have hok2 : (mkNewTxs last emi name lbl md i (k + 1)).2 = true := by
        unfold mkNewTxs
        rw [hd]
      rw [hok2] at hok
      exact absurd hok (by decide)
    · have hcons : mkNewTxs last emi name lbl md i (k + 1) =
          ({ ttype := last.ttype, category := last.category, date := dd, amount := emi,
             description := mkDesc name lbl (i + 1), status := "Pending", modeDetail := md } ::
             (mkNewTxs last emi name lbl md (i + 1) k).1,
           (mkNewTxs last emi name lbl md (i + 1) k).2) := by
        simp only [mkNewTxs, hd]
      rw [hcons] at hok ⊢
      obtain ⟨hl, hmem⟩ := ih (i + 1) hok
      refine ⟨by simp [hl], ?_⟩
      intro t ht
      rcases List.mem_cons.mp ht with h | h
      · subst h
        exact ⟨rfl, rfl, rfl⟩
      · exact ⟨(hmem t h).1, (hmem t h).2.1, hd ▸ (hmem t h).2.2⟩

/-- A nonempty successful creation loop proves the continuation date exists. -/
theorem mkNewTxs_dd (last : FinTx) (emi : ℚ) (name lbl md : String) (k i : Nat)
    (hk : k ≠ 0) (hok : (mkNewTxs last emi name lbl md i k).2 = false) :
    ∃ dd, desired_date last.date 1 = some dd := by
  cases k with
  | zero => exact absurd rfl hk
  | succ k =>
    rcases hd : desired_date last.date 1 with _ | dd
    · exfalso
      have hok2 : (mkNewTxs last emi name lbl md i (k + 1)).2 = true := by
        unfold mkNewTxs
        rw [hd]
      rw [hok2] at hok
      exact absurd hok (by decide)
    · exact ⟨dd, rfl⟩


/-- A successful grow step appends, after the repriced originals, the
requested number of new Pending transactions, all dated one month after the
last original transaction. -/
theorem resize_grow (prev : Nat) (inp : FinInput) (emi : ℚ) (cs : Bool) (md : String)
    (txs : List FinTx) (hgrow : prev < inp.count)
    (hok : (resize prev inp emi cs md txs).2 = none) :
    ∃ dd,
      txs.getLast?.map (fun t => desired_date t.date 1) = some (some dd) ∧
      (resize prev inp emi cs md txs).1.length = txs.length + (inp.count - prev) ∧
      ∀ t ∈ (resize prev inp emi cs md txs).1.drop txs.length,
        t.status = "Pending" ∧ t.amount = emi ∧ t.date = dd := by
  unfold resize at hok ⊢
  rw [if_pos hgrow] at hok ⊢
  simp only [] at hok ⊢
  rcases hlast : (repriceTxs emi cs txs).getLast? with _ | last
  · rw [hlast] at hok
    exact absurd hok (by simp)
  · rw [hlast] at hok
    simp only [] at hok ⊢
    cases hnw : (mkNewTxs last emi inp.name (subLabel inp.itype) md prev (inp.count - prev)).2 with
    | true =>
      rw [hnw] at hok
      simp at hok
    | false =>
      simp only [hnw] at hok ⊢
      obtain ⟨hl, hmem⟩ :=
        mkNewTxs_ok last emi inp.name (subLabel inp.itype) md (inp.count - prev) prev hnw
      obtain ⟨dd, hdd⟩ :=
        mkNewTxs_dd last emi inp.name (subLabel inp.itype) md (inp.count - prev) prev
          (by omega) hnw
      refine ⟨dd, ?_, ?_, ?_⟩
      · have h1 : (repriceTxs emi cs txs).getLast?.map (fun t => t.date) =
            txs.getLast?.map (fun t => t.date) := by
          rw [← List.getLast?_map, ← List.getLast?_map, reprice_dates]
        rw [hlast] at h1
        rcases hl0 : txs.getLast? with _ | t0
        · rw [hl0] at h1
          simp at h1
        · rw [hl0] at h1
          simp only [Option.map_some'] at h1 ⊢
          have hde : last.date = t0.date := Option.some.inj h1
          rw [← hde, hdd]
      · simp [List.length_append, reprice_length, hl]
      · intro t ht
        rw [← reprice_length emi cs txs, List.drop_left] at ht
        have hp := hmem t ht
        exact ⟨hp.1, hp.2.1, (Option.some.inj (hdd.symm.trans hp.2.2)).symm⟩


/-- A successful amount/installment phase with a larger requested count
appends the new Pending transactions at the recomputed per-installment
amount, all dated one month after the last existing transaction. -/
theorem amountPhase_grow (p : FinProd) (inp : FinInput) (txs : List FinTx)
    (hgrow : p.count < inp.count)
    (hok : (amountPhase p inp txs).2.2 = none) :
    ∃ dd,
      txs.getLast?.map (fun t => desired_date t.date 1) = some (some dd) ∧
      (amountPhase p inp txs).2.1.length = txs.length + (inp.count - p.count) ∧
      ∀ t ∈ (amountPhase p inp txs).2.1.drop txs.length,
        t.status = "Pending" ∧ t.amount = emiOf txs inp ∧ t.date = dd := by
  have hch : inp.amount ≠ p.amount ∨ inp.count ≠ p.count := Or.inr hgrow.ne'
  unfold amountPhase at hok ⊢
  rw [if_pos hch] at hok ⊢
  simp only [] at hok ⊢
  by_cases hcc : (txs.filter (fun t => t.status = "Completed")).length ≠ 0
  · rw [if_pos hcc] at hok ⊢
    split at hok
    · next e hv =>
      exact absurd hok (by simp)
    · next hv =>
      obtain ⟨dd, h1, h2, h3⟩ := resize_grow p.count inp _ true _ txs hgrow hok
      refine ⟨dd, h1, h2, ?_⟩
      intro t ht
      have hp := h3 t ht
      refine ⟨hp.1, ?_, hp.2.2⟩
      rw [hp.2.1]
      simp only [emiOf]
      rw [if_pos hcc]
  · rw [if_neg hcc] at hok ⊢
    obtain ⟨dd, h1, h2, h3⟩ := resize_grow p.count inp _ false _ txs hgrow hok
    refine ⟨dd, h1, h2, ?_⟩
    intro t ht
    have hp := h3 t ht
    refine ⟨hp.1, ?_, hp.2.2⟩
    rw [hp.2.1]
    simp only [emiOf]
    rw [if_neg hcc]


/-- C5 (amended): when the update succeeds with a larger installment count
and an unchanged start date, the appended transactions are all Pending at the
recomputed per-installment amount, and they all share the same due date: one
month after the last pre-existing transaction date (the cadence is not
continued). -/
theorem update_finance_append_spec (s : FinState) (inp : FinInput)
    (hstart : inp.startedOn = s.prod.startedOn)
    (hgrow : s.prod.count < inp.count)
    (hok : (update_finance_detail s inp).2 = none) :
    ∃ dd,
      s.txs.getLast?.map (fun t => desired_date t.date 1) = some (some dd) ∧
      (update_finance_detail s inp).1.txs.length =
        s.txs.length + (inp.count - s.prod.count) ∧
      ∀ t ∈ (update_finance_detail s inp).1.txs.drop s.txs.length,
        t.status = "Pending" ∧ t.amount = emiOf s.txs inp ∧ t.date = dd := by
  have h0 : ¬ inp.count = 0 := by omega
  unfold update_finance_detail at hok ⊢
  rw [if_neg h0] at hok ⊢
  simp only [] at hok ⊢
  rw [restartPhase_skip _ _ _ (hstart.trans ((retype_prod
      (FinProd.mk inp.name s.prod.ptype s.prod.startedOn s.prod.amount s.prod.count) inp
      (relabel inp.name (subLabel inp.itype) 1 s.txs)).1).symm)] at hok ⊢
  simp only [] at hok ⊢
  split at hok
  · next e2 hsome =>
    exact absurd hok (by simp)
  · next hnone =>
    have hgrow2 : (retype (FinProd.mk inp.name s.prod.ptype s.prod.startedOn s.prod.amount
        s.prod.count) inp (relabel inp.name (subLabel inp.itype) 1 s.txs)).1.count <
        inp.count := by
      rw [(retype_prod _ _ _).2.2]
      exact hgrow
    obtain ⟨dd, h1, h2, h3⟩ := amountPhase_grow _ inp _ hgrow2 hnone
    have hcore : (retype (FinProd.mk inp.name s.prod.ptype s.prod.startedOn s.prod.amount
        s.prod.count) inp (relabel inp.name (subLabel inp.itype) 1 s.txs)).2.map coreOf =
        s.txs.map coreOf :=
      (retype_core _ _ _).trans (relabel_core _ _ _ _)
    have hdates := core_dates _ _ hcore
    have hlen : (retype (FinProd.mk inp.name s.prod.ptype s.prod.startedOn s.prod.amount
        s.prod.count) inp (relabel inp.name (subLabel inp.itype) 1 s.txs)).2.length =
        s.txs.length := by
      have := congrArg List.length hcore
      simpa using this
    have hemi := emiOf_congr _ _ inp hcore
    have hlast : (retype (FinProd.mk inp.name s.prod.ptype s.prod.startedOn s.prod.amount
        s.prod.count) inp (relabel inp.name (subLabel inp.itype) 1 s.txs)).2.getLast?.map
          (fun t => t.date) = s.txs.getLast?.map (fun t => t.date) := by
      rw [← List.getLast?_map, ← List.getLast?_map, hdates]
    refine ⟨dd, ?_, ?_, ?_⟩
    · rcases hl0 : s.txs.getLast? with _ | t0
      · rw [hl0] at hlast
        rcases hlB : (retype (FinProd.mk inp.name s.prod.ptype s.prod.startedOn s.prod.amount
            s.prod.count) inp (relabel inp.name (subLabel inp.itype) 1 s.txs)).2.getLast? with
            _ | tB
        · rw [hlB] at h1
          simp at h1
        · rw [hlB] at hlast
          simp at hlast
      · rcases hlB : (retype (FinProd.mk inp.name s.prod.ptype s.prod.startedOn s.prod.amount
            s.prod.count) inp (relabel inp.name (subLabel inp.itype) 1 s.txs)).2.getLast? with
            _ | tB
        · rw [hlB] at h1
          simp at h1
        · rw [hlB] at h1 hlast
          rw [hl0] at hlast
          simp only [Option.map_some'] at h1 hlast ⊢
          have hde : tB.date = t0.date := Option.some.inj hlast
          rw [← hde]
          exact h1
    · refine h2.trans ?_
      rw [hlen, (retype_prod _ _ _).2.2]
    · intro t ht
      have ht2 : t ∈ (amountPhase
          (retype (FinProd.mk inp.name s.prod.ptype s.prod.startedOn s.prod.amount
            s.prod.count) inp (relabel inp.name (subLabel inp.itype) 1 s.txs)).1 inp
          (retype (FinProd.mk inp.name s.prod.ptype s.prod.startedOn s.prod.amount
            s.prod.count) inp (relabel inp.name (subLabel inp.itype) 1 s.txs)).2).2.1.drop
          (retype (FinProd.mk inp.name s.prod.ptype s.prod.startedOn s.prod.amount
            s.prod.count) inp (relabel inp.name (subLabel inp.itype) 1 s.txs)).2.length := by
        rw [hlen]
        exact ht
      have hp := h3 t ht2
      exact ⟨hp.1, hp.2.1.trans hemi, hp.2.2⟩


/-- Concrete state for C5: a Loan of 200 in 2 pending installments dated
2024-01-01 and 2024-02-01. -/
def st5 : FinState :=
  ⟨⟨"a", "Loan", ⟨2024, 1, 1⟩, 200, 2⟩,
   [⟨"Expense", "EMI", ⟨2024, 1, 1⟩, 100, "a EMI 1", "Pending", "Loan"⟩,
    ⟨"Expense", "EMI", ⟨2024, 2, 1⟩, 100, "a EMI 2", "Pending", "Loan"⟩]⟩

/-- Concrete request for C5: double the amount and grow to 4 installments. -/
def inp5 : FinInput := ⟨"a", "Loan", ⟨2024, 1, 1⟩, 400, 4, ""⟩

/-- Counterexample for C5: both appended installments are dated 2024-03-01,
one month after the last existing installment, rather than continuing the
cadence with strictly increasing dates 2024-03-01, 2024-04-01. -/
theorem update_finance_append_counterexample :
    (update_finance_detail st5 inp5).2 = none ∧
    ((update_finance_detail st5 inp5).1.txs.map (fun t => t.date)) =
      [⟨2024, 1, 1⟩, ⟨2024, 2, 1⟩, ⟨2024, 3, 1⟩, ⟨2024, 3, 1⟩] ∧
    dteLt ⟨2024, 3, 1⟩ ⟨2024, 3, 1⟩ = false ∧
    (⟨2024, 3, 1⟩ : Dte) ≠ ⟨2024, 4, 1⟩ := by
  refine ⟨?_, ?_, by decide, by decide⟩ <;>
    norm_num +decide [update_finance_detail, st5, inp5, relabel, retype, restartPhase,
      amountPhase, amountValidation, resize, subLabel, mkDesc, financeCategory,
      repriceTxs, shrinkTxs, mkNewTxs, desired_date, Dte.valid, daysInMonth]

/-- Witness for C5 as amended: the same run appends two Pending installments
of the recomputed amount, both dated one month after the last original one. -/
theorem update_finance_append_spec_witness :
    ∃ dd,
      st5.txs.getLast?.map (fun t => desired_date t.date 1) = some (some dd) ∧
      (update_finance_detail st5 inp5).1.txs.length =
        st5.txs.length + (inp5.count - st5.prod.count) ∧
      ∀ t ∈ (update_finance_detail st5 inp5).1.txs.drop st5.txs.length,
        t.status = "Pending" ∧ t.amount = emiOf st5.txs inp5 ∧ t.date = dd :=
  update_finance_append_spec st5 inp5 rfl (by decide)
    (by norm_num +decide [update_finance_detail, st5, inp5, relabel, retype, restartPhase,
      amountPhase, amountValidation, resize, subLabel, mkDesc, financeCategory,
      repriceTxs, shrinkTxs, mkNewTxs, desired_date, Dte.valid, daysInMonth])

end MHB
